import Mathlib

/-!
Verification of the irctoslack bridge (fredsmith/irctoslack).

Go strings are modelled as `List Char`.  The functions below are shallow
embeddings of the Go standard-library string operations used by the program
and of the program functions themselves, translated from the source file.
-/

set_option maxHeartbeats 1000000

/-- Converts a Lean string literal to the `List Char` representation used
throughout this development. -/
def goStr (s : String) : List Char := s.toList

/-- Embeds Go strings.Index: the index of the first occurrence of sub in s,
with Go result -1 rendered as none. -/
def goIndex (sub : List Char) : List Char → Option Nat
  | [] => if sub.isEmpty then some 0 else none
  | c :: rest =>
      if sub.isPrefixOf (c :: rest) then some 0
      else (goIndex sub rest).map (· + 1)

/-- Embeds Go strings.HasPrefix. -/
def goStartsWith (sub s : List Char) : Bool := sub.isPrefixOf s

/-- Embeds Go strings.Contains (Index >= 0). -/
def goContains (sub s : List Char) : Bool := (goIndex sub s).isSome

/-- Embeds Go strings.TrimRight: removes trailing characters that belong to
the cutset. -/
def goTrimRight (s cutset : List Char) : List Char :=
  (s.reverse.dropWhile (fun c => cutset.contains c)).reverse

/-- Embeds the Go slice expression s[lo:hi] on a string: it panics (none)
unless lo <= hi and hi <= len(s). -/
def goSlice (s : List Char) (lo hi : Nat) : Option (List Char) :=
  if lo ≤ hi ∧ hi ≤ s.length then some ((s.take hi).drop lo) else none

/-- Embeds Go strings.Replace with count 1: replaces the first occurrence of
old by new. -/
def goReplace1 (s old new : List Char) : List Char :=
  match goIndex old s with
  | none => s
  | some i => s.take i ++ new ++ s.drop (i + old.length)

/-- Embeds Go fmt.Sprintf applied to a format string with ZERO operands, for
the fragment in which every percent sign is followed directly by a verb
character or by another percent sign.  Go copies ordinary characters, turns
a double percent into a single percent, emits percent-bang-NOVERB for a
trailing percent, and expands any other verb with no remaining operand to
percent-bang-verb-MISSING.  This models the effect of the calls
fmt.Fprintf(conn, response) in the source, which pass a network line as the
format string with no operand list. -/
def fmtNoArgs : List Char → List Char
  | [] => []
  | '%' :: [] => goStr "%!(NOVERB)"
  | '%' :: c :: rest =>
      if c = '%' then '%' :: fmtNoArgs rest
      else goStr "%!" ++ c :: (goStr "(MISSING)" ++ fmtNoArgs rest)
  | c :: rest => c :: fmtNoArgs rest

/-- The literal token " PRIVMSG " searched for by extractIRCMessage. -/
def privmsgTok : List Char := [' ', 'P', 'R', 'I', 'V', 'M', 'S', 'G', ' ']

/-- The literal token " :" searched for by extractIRCMessage. -/
def colonTok : List Char := [' ', ':']

/-- Embeds extractNickname from the source: the substring between index 1 and
the first exclamation mark; an input without an exclamation mark yields the
empty string.  The Go slice message[1:prefixEnd] panics (none) when the first
exclamation mark is the first character. -/
def extractNickname (message : List Char) : Option (List Char) :=
  match goIndex ['!'] message with
  | none => some []
  | some prefixEnd => goSlice message 1 prefixEnd

/-- Embeds extractIRCMessage from the source: find the token " PRIVMSG ",
then take the text after the first " :" in the remainder, with trailing
carriage-return and line-feed characters stripped; absent either match the
empty string is returned.  The two drops are always in range, so the
function is total. -/
def extractIRCMessage (message : List Char) : List Char :=
  match goIndex privmsgTok message with
  | none => []
  | some idx =>
      let rest := message.drop (idx + privmsgTok.length)
      match goIndex colonTok rest with
      | none => []
      | some colonIdx => goTrimRight (rest.drop (colonIdx + 2)) ['\r', '\n']

/-- Embeds extractActionMessage from the source.  Go computes
start := Index(message, "ACTION") + len("ACTION "); with Index = -1 this is
6, otherwise the occurrence index plus 7.  The slice message[start:] panics
(none) when start exceeds the length.  Otherwise the text up to the next
SOH byte (or, absent one, with trailing line terminators stripped) is
returned. -/
def extractActionMessage (message : List Char) : Option (List Char) :=
  let start : Nat :=
    match goIndex (goStr "ACTION") message with
    | none => 6
    | some i => i + 7
  if start ≤ message.length then
    let rest := message.drop start
    match goIndex ['\x01'] rest with
    | none => some (goTrimRight rest ['\r', '\n'])
    | some e => some (rest.take e)
  else none

/-- The observable effect of handleMessage on one incoming IRC line: a PONG
write to the guarded connection, a post to Slack, or nothing. -/
inductive HandleAction where
  | pong (response : List Char)
  | slack (text : List Char)
  | ignore
deriving DecidableEq

/-- Embeds handleMessage from the source: the if-chain classifying one raw
line.  A branch whose extraction panics propagates the panic (none). -/
def handleMessage (message : List Char) : Option HandleAction :=
  if goStartsWith (goStr "PING") message then
    some (HandleAction.pong (goReplace1 message (goStr "PING") (goStr "PONG")))
  else if goContains (goStr "JOIN") message then
    (extractNickname message).map
      (fun nickname => HandleAction.slack ('*' :: nickname ++ goStr " has joined the channel*"))
  else if goContains (goStr "PART") message then
    (extractNickname message).map
      (fun nickname => HandleAction.slack ('*' :: nickname ++ goStr " has left the channel*"))
  else if goContains (goStr "PRIVMSG") message && goContains (goStr "ACTION") message then
    (extractNickname message).bind (fun nickname =>
      (extractActionMessage message).map (fun actionMessage =>
        HandleAction.slack ('_' :: nickname ++ ' ' :: actionMessage ++ ['_'])))
  else if goContains (goStr "PRIVMSG") message then
    (extractNickname message).map
      (fun nickname => HandleAction.slack ('<' :: nickname ++ '>' :: ' ' :: extractIRCMessage message))
  else some HandleAction.ignore

/-- The bytes that actually reach the IRC connection for a PONG reply: the
source calls fmt.Fprintf(conn, response), so the response string is
processed as a format string with no operands. -/
def pongWireBytes (response : List Char) : List Char := fmtNoArgs response

/-- The canonical PRIVMSG line shape from the spec:
colon nick bang userhost " PRIVMSG " chan " :" text CRLF. -/
def privmsgLine (nick userhost chan text : List Char) : List Char :=
  ':' :: nick ++ '!' :: userhost ++ privmsgTok ++ chan ++ colonTok ++ text ++ ['\r', '\n']

/-- A cache entry: display name plus expiration timestamp (UserCache in the
source).  Time is modelled as a natural number of seconds. -/
structure UserCacheEntry where
  displayName : String
  expiration : Nat
deriving DecidableEq

/-- The user cache map, modelled as an association list; the most recent
binding for a key shadows older ones, matching Go map assignment. -/
abbrev UserCacheMap := List (String × UserCacheEntry)

/-- Reads a key from the cache map (Go map read with ok flag). -/
def cacheFind (m : UserCacheMap) (k : String) : Option UserCacheEntry :=
  match m with
  | [] => none
  | (k2, v) :: rest => if k2 = k then some v else cacheFind rest k

/-- Writes a key into the cache map (Go map assignment). -/
def cacheInsert (m : UserCacheMap) (k : String) (v : UserCacheEntry) : UserCacheMap :=
  (k, v) :: m

/-- cacheDuration = 1 * time.Hour from the source, in seconds. -/
def cacheDuration : Nat := 3600

/-- The outcome of the remote Slack users.info lookup inside
getUserDisplayName, covering the failure paths of the source: transport
failure (which also covers the request-construction error path, behaviorally
identical), JSON decode failure, API-level ok=false, and success carrying
the profile display name and real name. -/
inductive LookupResult where
  | netError
  | decodeError
  | apiNotOk
  | ok (displayName realName : String)
deriving DecidableEq

/-- Result of one getUserDisplayName call: the returned name, the cache
after the call, and how many remote lookup attempts the call performed. -/
structure ResolveResult where
  name : String
  cache : UserCacheMap
  lookups : Nat
deriving DecidableEq

/-- The fetch path of getUserDisplayName (everything after the cache check):
on any failure, return the raw user ID and leave the cache unchanged; on
success, pick display name, else real name, else the user ID, and cache the
result with expiration now + cacheDuration. -/
def fetchDisplayName (lookup : LookupResult) (userID : String) (now : Nat)
    (cache : UserCacheMap) : ResolveResult :=
  match lookup with
  | LookupResult.netError => ⟨userID, cache, 1⟩
  | LookupResult.decodeError => ⟨userID, cache, 1⟩
  | LookupResult.apiNotOk => ⟨userID, cache, 1⟩
  | LookupResult.ok d r =>
      let displayName := if d ≠ "" then d else if r ≠ "" then r else userID
      ⟨displayName, cacheInsert cache userID ⟨displayName, now + cacheDuration⟩, 1⟩

/-- Embeds getUserDisplayName from the source: serve from the cache only
when an entry exists and the current time is strictly before its
expiration; otherwise run the fetch path. -/
def getUserDisplayName (lookup : LookupResult) (userID : String) (now : Nat)
    (cache : UserCacheMap) : ResolveResult :=
  match cacheFind cache userID with
  | some e =>
      if now < e.expiration then ⟨e.displayName, cache, 0⟩
      else fetchDisplayName lookup userID now cache
  | none => fetchDisplayName lookup userID now cache

/-- IRC side of the configuration. -/
structure IRCConfig where
  server : String
  channel : String
  nickname : String
deriving DecidableEq

/-- Slack side of the configuration. -/
structure SlackConfig where
  webhookURL : String
  listenAddress : String
  apiToken : String
  ignoreBots : Bool
  ignoreUsers : List String
deriving DecidableEq

/-- The yaml configuration (Config in the source). -/
structure Config where
  irc : IRCConfig
  slack : SlackConfig
deriving DecidableEq

/-- The inner event of a Slack event envelope. -/
structure SlackEventInner where
  type : String
  user : String
  text : String
  channel : String
  botID : String
  subtype : String
deriving DecidableEq

/-- The Slack event envelope (SlackEvent in the source). -/
structure SlackEvent where
  type : String
  challenge : String
  event : SlackEventInner
deriving DecidableEq

/-- Embeds shouldProcessMessage from the source: drop events with a
non-empty subtype, drop bot events when ignore_bots is set, drop senders in
the ignore list. -/
def shouldProcessMessage (event : SlackEvent) (config : Config) : Bool :=
  if event.event.subtype ≠ "" then false
  else if config.slack.ignoreBots && event.event.botID ≠ "" then false
  else if event.event.user ∈ config.slack.ignoreUsers then false
  else true

/-- An HTTP response as observed by the webhook caller. -/
structure HttpResponse where
  status : Nat
  body : String
deriving DecidableEq

/-- Embeds the handler returned by createWebhookHandler.  Externals are
passed as parameters: decoded is the result of JSON-decoding the request
body (none = decode error), resolve and translate stand for
getUserDisplayName and translateMentions on the live cache, and writeOk
tells whether the guarded Fprintf to the IRC connection succeeded.  The
result is the HTTP response paired with the line handed to the guarded
write, if any.  http.Error terminates its body with a newline. -/
def createWebhookHandler (config : Config) (resolve translate : String → String)
    (writeOk : Bool) (method : String) (decoded : Option SlackEvent) :
    HttpResponse × Option String :=
  if method ≠ "POST" then (⟨405, "Method not allowed\n"⟩, none)
  else
    match decoded with
    | none => (⟨400, "Bad request\n"⟩, none)
    | some event =>
      if event.type = "url_verification" then (⟨200, event.challenge⟩, none)
      else if event.type = "event_callback" && event.event.type = "message" then
        if !shouldProcessMessage event config then (⟨200, ""⟩, none)
        else
          let displayName := resolve event.event.user
          let translatedText := translate event.event.text
          let ircMessage :=
            "PRIVMSG " ++ config.irc.channel ++ " :<" ++ displayName ++ "> "
              ++ translatedText ++ "\r\n"
          if writeOk then (⟨200, "ok"⟩, some ircMessage)
          else (⟨500, "Internal server error\n"⟩, some ircMessage)
      else (⟨200, "ok"⟩, none)

/-- Outcome of one net.Dial attempt in manageIRCConnection. -/
inductive DialOutcome where
  | ok
  | fail
deriving DecidableEq

/-- Abstract state of manageIRCConnection plus the webhook handler.
Connections are numbered by generation.  current is the generation held in
the local ircConn variable of manageIRCConnection; handlerSession is the
generation the webhook handler closure captured from the one-shot ready
channel; nextGen numbers the next connection; firstConnection mirrors the
flag in the source. -/
structure ManagerState where
  current : Option Nat
  handlerSession : Option Nat
  nextGen : Nat
  firstConnection : Bool
deriving DecidableEq

/-- Initial manager state: no connection yet, handler not started. -/
def managerInit : ManagerState := ⟨none, none, 0, true⟩

/-- One iteration of the manageIRCConnection loop, driven by the outcome of
its net.Dial: a failed first dial is fatal (none, log.Fatalf); a failed
later dial just continues the loop; a successful dial installs a freshly
allocated IRCConnection in the local variable and sends it on the ready
channel only if this is the first connection.  Reaching the next iteration
after a success corresponds to the read loop ending with an error. -/
def manageStep (s : ManagerState) (o : DialOutcome) : Option ManagerState :=
  match o with
  | DialOutcome.fail => if s.firstConnection then none else some s
  | DialOutcome.ok =>
      some { current := some s.nextGen,
             handlerSession := if s.firstConnection then some s.nextGen else s.handlerSession,
             nextGen := s.nextGen + 1,
             firstConnection := false }

/-- Embeds manageIRCConnection as a fold of manageStep over the sequence of
dial outcomes. -/
def manageIRCConnection (outs : List DialOutcome) : Option ManagerState :=
  outs.foldlM manageStep managerInit

/-- The connection generation a webhook request writes to: the handler
closure writes through the IRCConnection it captured at startup. -/
def webhookWriteTarget (s : ManagerState) : Option Nat := s.handlerSession

/-- Observable events of the manageIRCConnection loop, in order. -/
inductive ManagerEvent where
  | dial
  | logConnectFailure
  | fatalExit
  | registerCmds
  | sendReady
  | logConnectionLost
  | sleep (seconds : Nat)
deriving DecidableEq

/-- The event trace of manageIRCConnection on a list of dial outcomes,
translated from the source loop: every iteration dials; a failed first dial
logs and exits fatally; a failed later dial logs and immediately retries; a
successful dial sends NICK, USER and JOIN, signals readiness on the first
connection only, then streams until a read error (which exists exactly when
a further outcome follows) and logs the lost connection.  The source
contains no sleep between attempts, so no sleep event is ever emitted. -/
def manageIRCConnectionTrace : Bool → List DialOutcome → List ManagerEvent
  | _, [] => []
  | first, DialOutcome.fail :: rest =>
      if first then [ManagerEvent.dial, ManagerEvent.logConnectFailure, ManagerEvent.fatalExit]
      else ManagerEvent.dial :: ManagerEvent.logConnectFailure ::
        manageIRCConnectionTrace false rest
  | first, DialOutcome.ok :: rest =>
      ManagerEvent.dial :: ManagerEvent.registerCmds ::
        ((if first then [ManagerEvent.sendReady] else []) ++
          match rest with
          | [] => []
          | _ :: _ => ManagerEvent.logConnectionLost :: manageIRCConnectionTrace false rest)

/-- Number of dial attempts in a manager trace. -/
def countDials : List ManagerEvent → Nat
  | [] => 0
  | ManagerEvent.dial :: r => countDials r + 1
  | _ :: r => countDials r

/-- Whether a manager trace contains any sleep event. -/
def hasSleepEvent : List ManagerEvent → Bool
  | [] => false
  | ManagerEvent.sleep _ :: _ => true
  | _ :: r => hasSleepEvent r

/-- Whether a manager trace contains the fatal process exit. -/
def hasFatalExit : List ManagerEvent → Bool
  | [] => false
  | ManagerEvent.fatalExit :: _ => true
  | _ :: r => hasFatalExit r

/-- Program counter of one webhook writer task: before ircConn.mutex.Lock,
holding the lock with some bytes of its line still to write, or finished
after ircConn.mutex.Unlock. -/
inductive WriterPc where
  | idle (line : List Char)
  | writing (rest : List Char)
  | done
deriving DecidableEq

/-- Shared state of two concurrent webhook writers: who holds the mutex,
each task program counter (tasks named by Bool), and the tagged byte stream
observed on the IRC connection. -/
structure RelayState where
  lock : Option Bool
  pc : Bool → WriterPc
  stream : List (Bool × Char)

/-- Function update on the task program counters. -/
def updatePc (pc : Bool → WriterPc) (t : Bool) (v : WriterPc) : Bool → WriterPc :=
  fun u => if u = t then v else pc u

/-- Interleaving small-step semantics of the guarded write path: a task may
acquire the free mutex, emit the next byte of its line while holding the
mutex, and release the mutex once its line is fully written.  This mirrors
ircConn.mutex.Lock(); fmt.Fprintf(ircConn.conn, ircMessage);
ircConn.mutex.Unlock() in the source: the whole write happens between Lock
and Unlock. -/
inductive RelayStep : RelayState → RelayState → Prop where
  | acquire (s : RelayState) (t : Bool) (line : List Char) :
      s.lock = none → s.pc t = WriterPc.idle line →
      RelayStep s { lock := some t, pc := updatePc s.pc t (WriterPc.writing line),
                    stream := s.stream }
  | emit (s : RelayState) (t : Bool) (c : Char) (rest : List Char) :
      s.lock = some t → s.pc t = WriterPc.writing (c :: rest) →
      RelayStep s { lock := s.lock, pc := updatePc s.pc t (WriterPc.writing rest),
                    stream := s.stream ++ [(t, c)] }
  | release (s : RelayState) (t : Bool) :
      s.lock = some t → s.pc t = WriterPc.writing [] →
      RelayStep s { lock := none, pc := updatePc s.pc t WriterPc.done,
                    stream := s.stream }

/-- The line task t wants to write. -/
def relayLine (lineA lineB : List Char) (t : Bool) : List Char :=
  if t then lineA else lineB

/-- Initial state: mutex free, both tasks about to write, nothing written. -/
def relayInit (lineA lineB : List Char) : RelayState :=
  { lock := none, pc := fun t => WriterPc.idle (relayLine lineA lineB t), stream := [] }

/-- The task tags of a stream, in order. -/
def tagsOf (s : List (Bool × Char)) : List Bool := s.map Prod.fst

/-- The bytes task t contributed to the stream, in order. -/
def streamProj (t : Bool) (s : List (Bool × Char)) : List Char :=
  (s.filter (fun e => e.1 == t)).map Prod.snd

/-- Number of adjacent positions at which the tag changes. -/
def flips : List Bool → Nat
  | [] => 0
  | [_] => 0
  | a :: b :: r => (if a = b then 0 else 1) + flips (b :: r)

/-- A stream does not interleave partial lines when each writer of the pair
contributes one contiguous block of bytes: the tag sequence changes at most
once. -/
def noInterleave (s : List (Bool × Char)) : Prop := flips (tagsOf s) ≤ 1

/-- Inductive invariant of the guarded write system: mutex ownership and
writing states coincide; an idle task has written nothing and still owes its
whole line; a writing task has written exactly the consumed prefix of its
line, and if it already wrote anything its bytes end the stream; a finished
task has written exactly its line; and the stream is non-interleaved. -/
def RelayInv (lineA lineB : List Char) (s : RelayState) : Prop :=
  (∀ t, s.lock = some t → ∃ r, s.pc t = WriterPc.writing r) ∧
  (∀ t r, s.pc t = WriterPc.writing r → s.lock = some t) ∧
  (∀ t l, s.pc t = WriterPc.idle l →
      l = relayLine lineA lineB t ∧ streamProj t s.stream = []) ∧
  (∀ t r, s.pc t = WriterPc.writing r →
      streamProj t s.stream ++ r = relayLine lineA lineB t) ∧
  (∀ t, s.pc t = WriterPc.done → streamProj t s.stream = relayLine lineA lineB t) ∧
  (∀ t r, s.pc t = WriterPc.writing r → streamProj t s.stream ≠ [] →
      (tagsOf s.stream).getLast? = some t) ∧
  noInterleave s.stream

/-- A sample configuration used in concrete webhook statements. -/
def sampleConfig : Config :=
  { irc := { server := "irc.example.net:6667", channel := "#chan",
             nickname := "bridge" },
    slack := { webhookURL := "https://hooks.example/x", listenAddress := ":3000",
               apiToken := "xoxb-token", ignoreBots := true, ignoreUsers := [] } }

/-- A filtered message event: a message with a non-empty subtype. -/
def subtypedEvent : SlackEvent :=
  { type := "event_callback", challenge := "",
    event := { type := "message", user := "U1", text := "hi", channel := "C1",
               botID := "", subtype := "bot_message" } }

/-- A plain message event from a normal user. -/
def plainEvent : SlackEvent :=
  { type := "event_callback", challenge := "",
    event := { type := "message", user := "U1", text := "hi", channel := "C1",
               botID := "", subtype := "" } }

/-- A url_verification envelope. -/
def verificationEvent : SlackEvent :=
  { type := "url_verification", challenge := "abc123",
    event := { type := "", user := "", text := "", channel := "",
               botID := "", subtype := "" } }

theorem isPrefixOf_self_append (l t : List Char) : l.isPrefixOf (l ++ t) = true := by
  induction l with
  | nil => simp [List.isPrefixOf]
  | cons c rest ih => simp [List.isPrefixOf, ih]

theorem goIndex_append_cons (d : Char) (sub pre suf : List Char) (hd : d ∉ pre) :
    goIndex (d :: sub) (pre ++ d :: sub ++ suf) = some pre.length := by
  induction pre with
  | nil =>
      simp only [List.nil_append, List.length_nil]
      unfold goIndex
      rw [show (d :: sub ++ suf) = d :: (sub ++ suf) from rfl]
      simp [List.isPrefixOf, isPrefixOf_self_append]
  | cons p ps ih =>
      have hdp : d ≠ p := fun h => hd (h ▸ List.mem_cons_self p ps)
      have hd2 : d ∉ ps := fun h => hd (List.mem_cons_of_mem p h)
      simp only [List.cons_append, List.length_cons]
      unfold goIndex
      have hpre : (d :: sub).isPrefixOf (p :: (ps ++ d :: sub ++ suf)) = false := by
        simp [List.isPrefixOf, beq_eq_false_iff_ne, hdp]
      rw [hpre]
      simp only [Bool.false_eq_true, if_false]
      rw [ih hd2]
      rfl

theorem goIndex_some_le (sub s : List Char) (i : Nat) (h : goIndex sub s = some i) :
    i ≤ s.length := by
  induction s generalizing i with
  | nil =>
      unfold goIndex at h
      by_cases he : sub.isEmpty <;> simp [he] at h
      omega
  | cons c rest ih =>
      unfold goIndex at h
      by_cases hp : sub.isPrefixOf (c :: rest)
      · simp [hp] at h
        omega
      · simp [hp] at h
        obtain ⟨j, hj, rfl⟩ := h
        have := ih j hj
        simp
        omega

theorem contains_crlf_false (c : Char) (hc1 : c ≠ '\r') (hc2 : c ≠ '\n') :
    (['\r', '\n'] : List Char).contains c = false := by
  simp [List.contains]
  exact ⟨hc1, hc2⟩

theorem dropWhile_crlf_eq_self (l : List Char)
    (h : ∀ c ∈ l, c ≠ '\r' ∧ c ≠ '\n') :
    List.dropWhile (fun c => (['\r', '\n'] : List Char).contains c) l = l := by
  cases l with
  | nil => rfl
  | cons c cs =>
      have hc := h c (List.mem_cons_self c cs)
      rw [List.dropWhile_cons]
      simp only [contains_crlf_false c hc.1 hc.2, Bool.false_eq_true, if_false]

theorem goTrimRight_append_crlf (text : List Char)
    (h1 : '\r' ∉ text) (h2 : '\n' ∉ text) :
    goTrimRight (text ++ ['\r', '\n']) ['\r', '\n'] = text := by
  unfold goTrimRight
  rw [List.reverse_append]
  rw [show (['\r', '\n'] : List Char).reverse = ['\n', '\r'] from by decide]
  rw [show ('\n' :: ['\r'] ++ text.reverse : List Char)
      = '\n' :: '\r' :: text.reverse from rfl]
  rw [List.dropWhile_cons]
  rw [if_pos (by decide)]
  rw [List.dropWhile_cons]
  rw [if_pos (by decide)]
  rw [dropWhile_crlf_eq_self text.reverse (fun c hc =>
    ⟨fun h => h1 (h ▸ List.mem_reverse.mp hc), fun h => h2 (h ▸ List.mem_reverse.mp hc)⟩)]
  exact List.reverse_reverse text

theorem extractNickname_privmsgLine (nick userhost chan text : List Char)
    (h : '!' ∉ nick) :
    extractNickname (privmsgLine nick userhost chan text) = some nick := by
  have hpre : '!' ∉ (':' :: nick) := by
    intro hmem
    rcases List.mem_cons.mp hmem with h1 | h1
    · exact absurd h1 (by decide)
    · exact h h1
  have hline : privmsgLine nick userhost chan text
      = (':' :: nick) ++ '!' :: []
          ++ (userhost ++ privmsgTok ++ chan ++ colonTok ++ text ++ ['\r', '\n']) := by
    simp [privmsgLine]
  have hidx : goIndex ['!'] (privmsgLine nick userhost chan text)
      = some (nick.length + 1) := by
    rw [hline]
    have := goIndex_append_cons '!' [] (':' :: nick)
      (userhost ++ privmsgTok ++ chan ++ colonTok ++ text ++ ['\r', '\n']) hpre
    simpa using this
  have hstep : extractNickname (privmsgLine nick userhost chan text)
      = goSlice (privmsgLine nick userhost chan text) 1 (nick.length + 1) := by
    unfold extractNickname
    rw [hidx]
  rw [hstep]
  unfold goSlice
  have hlen : nick.length + 1 ≤ (privmsgLine nick userhost chan text).length := by
    simp only [privmsgLine, List.length_cons, List.length_append]
    omega
  rw [if_pos ⟨Nat.succ_le_succ (Nat.zero_le _), hlen⟩]
  have htake : (privmsgLine nick userhost chan text).take (nick.length + 1)
      = ':' :: nick := by
    have : privmsgLine nick userhost chan text
        = (':' :: nick)
            ++ ('!' :: (userhost ++ privmsgTok ++ chan ++ colonTok ++ text ++ ['\r', '\n'])) := by
      simp [privmsgLine]
    rw [this]
    have hl : nick.length + 1 = (':' :: nick).length := by simp
    rw [hl, List.take_left]
  rw [htake]
  rfl

theorem extractIRCMessage_privmsgLine (nick userhost chan text : List Char)
    (hn : ' ' ∉ nick) (hu : ' ' ∉ userhost) (hc : ' ' ∉ chan)
    (ht1 : '\r' ∉ text) (ht2 : '\n' ∉ text) :
    extractIRCMessage (privmsgLine nick userhost chan text) = text := by
  have hsp : ' ' ∉ (':' :: (nick ++ '!' :: userhost)) := by
    intro hmem
    rcases List.mem_cons.mp hmem with h1 | h1
    · exact absurd h1 (by decide)
    · rcases List.mem_append.mp h1 with h2 | h2
      · exact hn h2
      · rcases List.mem_cons.mp h2 with h3 | h3
        · exact absurd h3 (by decide)
        · exact hu h3
  have hline : privmsgLine nick userhost chan text
      = (':' :: (nick ++ '!' :: userhost))
          ++ ' ' :: ['P', 'R', 'I', 'V', 'M', 'S', 'G', ' ']
          ++ (chan ++ colonTok ++ text ++ ['\r', '\n']) := by
    simp [privmsgLine, privmsgTok]
  have hidx : goIndex privmsgTok (privmsgLine nick userhost chan text)
      = some (':' :: (nick ++ '!' :: userhost)).length := by
    rw [hline]
    exact goIndex_append_cons ' ' ['P', 'R', 'I', 'V', 'M', 'S', 'G', ' ']
      (':' :: (nick ++ '!' :: userhost)) (chan ++ colonTok ++ text ++ ['\r', '\n']) hsp
  have hrest : (privmsgLine nick userhost chan text).drop
      ((':' :: (nick ++ '!' :: userhost)).length + privmsgTok.length)
      = chan ++ colonTok ++ text ++ ['\r', '\n'] := by
    have h2 : privmsgLine nick userhost chan text
        = ((':' :: (nick ++ '!' :: userhost)) ++ privmsgTok)
            ++ (chan ++ colonTok ++ text ++ ['\r', '\n']) := by
      simp [privmsgLine, List.append_assoc]
    rw [h2, ← List.length_append, List.drop_left]
  have hidx2 : goIndex colonTok (chan ++ colonTok ++ text ++ ['\r', '\n'])
      = some chan.length := by
    have h0 : chan ++ colonTok ++ text ++ ['\r', '\n']
        = chan ++ colonTok ++ (text ++ ['\r', '\n']) := by
      simp [List.append_assoc]
    rw [h0]
    exact goIndex_append_cons ' ' [':'] chan (text ++ ['\r', '\n']) hc
  have hdrop2 : (chan ++ colonTok ++ text ++ ['\r', '\n']).drop (chan.length + 2)
      = text ++ ['\r', '\n'] := by
    have h3 : chan ++ colonTok ++ text ++ ['\r', '\n']
        = (chan ++ colonTok) ++ (text ++ ['\r', '\n']) := by
      simp [List.append_assoc]
    have h4 : chan.length + 2 = (chan ++ colonTok).length := by
      simp [colonTok]
    rw [h3, h4, List.drop_left]
  have hstep : extractIRCMessage (privmsgLine nick userhost chan text)
      = match goIndex colonTok ((privmsgLine nick userhost chan text).drop
          ((':' :: (nick ++ '!' :: userhost)).length + privmsgTok.length)) with
        | none => []
        | some colonIdx =>
            goTrimRight (((privmsgLine nick userhost chan text).drop
              ((':' :: (nick ++ '!' :: userhost)).length + privmsgTok.length)).drop
              (colonIdx + 2)) ['\r', '\n'] := by
    unfold extractIRCMessage
    rw [hidx]
  rw [hstep, hrest, hidx2]
  simp only []
  rw [hdrop2]
  exact goTrimRight_append_crlf text ht1 ht2

/-- Claim C7: on the line colon nick bang userhost " PRIVMSG " chan " :" text
CRLF, extractNickname returns exactly nick and extractIRCMessage returns
exactly text with no trailing line-terminator characters; extraction keys on
the literal token " PRIVMSG " so colon-bearing prefix fields such as IPv6
addresses do not affect the result, and absent a match the chat text is
empty.  The hypotheses state well-formedness of the IRC fields: no
exclamation mark in the nickname, no spaces in nickname, user/host or
channel, and no line terminators inside the text body. -/
theorem c7_codec_extraction (nick userhost chan text : List Char)
    (h1 : '!' ∉ nick) (h2 : ' ' ∉ nick) (h3 : ' ' ∉ userhost) (h4 : ' ' ∉ chan)
    (h5 : '\r' ∉ text) (h6 : '\n' ∉ text) :
    extractNickname (privmsgLine nick userhost chan text) = some nick ∧
    extractIRCMessage (privmsgLine nick userhost chan text) = text ∧
    (∀ m, goIndex privmsgTok m = none → extractIRCMessage m = []) ∧
    (∀ m idx, goIndex privmsgTok m = some idx →
      goIndex colonTok (m.drop (idx + privmsgTok.length)) = none →
      extractIRCMessage m = []) := by
  refine ⟨extractNickname_privmsgLine nick userhost chan text h1,
    extractIRCMessage_privmsgLine nick userhost chan text h2 h3 h4 h5 h6, ?_, ?_⟩
  · intro m hm
    unfold extractIRCMessage
    rw [hm]
  · intro m idx hm hcolon
    unfold extractIRCMessage
    rw [hm]
    simp only []
    rw [hcolon]

/-- Witness for C7 at a concrete PRIVMSG line with an IPv6 user/host
field. -/
theorem c7_codec_extraction_witness :
    extractNickname (privmsgLine (goStr "alice") (goStr "u@2001:db8::1")
        (goStr "#chan") (goStr "hello world")) = some (goStr "alice") ∧
    extractIRCMessage (privmsgLine (goStr "alice") (goStr "u@2001:db8::1")
        (goStr "#chan") (goStr "hello world")) = goStr "hello world" := by
  have h := c7_codec_extraction (goStr "alice") (goStr "u@2001:db8::1")
    (goStr "#chan") (goStr "hello world")
    (by decide) (by decide) (by decide) (by decide) (by decide) (by decide)
  exact ⟨h.1, h.2.1⟩

/-- Counterexample to claim C9: the extraction functions are NOT total.  On
the string consisting of a single exclamation mark, extractNickname
evaluates the Go slice message[1:0], which panics (none); on the string
"ACTION", extractActionMessage computes start = 0 + 7 = 7 past the length 6
and the slice message[7:] panics (none). -/
theorem c9_counterexample :
    extractNickname (goStr "!") = none ∧
    extractActionMessage (goStr "ACTION") = none := by
  decide

/-- Claim C9 amended: extractNickname returns a result for every string
without an exclamation mark and for every string whose first exclamation
mark is not its first character; extractActionMessage returns a result
whenever the computed slice start (first index of "ACTION" plus 7, or 6
when absent) does not exceed the length.  Outside these conditions the Go
code panics with an out-of-range slice. -/
theorem c9_amended_totality :
    (∀ m, goIndex ['!'] m = none → extractNickname m = some []) ∧
    (∀ m i, goIndex ['!'] m = some i → 1 ≤ i → (extractNickname m).isSome = true) ∧
    (∀ m i, goIndex (goStr "ACTION") m = some i → i + 7 ≤ m.length →
      (extractActionMessage m).isSome = true) ∧
    (∀ m, goIndex (goStr "ACTION") m = none → 6 ≤ m.length →
      (extractActionMessage m).isSome = true) := by
  refine ⟨?_, ?_, ?_, ?_⟩
  · intro m hm
    unfold extractNickname
    rw [hm]
  · intro m i hm h1
    have hle : i ≤ m.length := goIndex_some_le ['!'] m i hm
    unfold extractNickname
    rw [hm]
    show (if 1 ≤ i ∧ i ≤ m.length then some (List.drop 1 (List.take i m))
      else none).isSome = true
    rw [if_pos ⟨h1, hle⟩]
    rfl
  · intro m i hm hlen
    simp only [extractActionMessage, hm]
    rw [if_pos hlen]
    cases hx : goIndex ['\x01'] (m.drop (i + 7)) with
    | none => simp [hx]
    | some e => simp [hx]
  · intro m hm hlen
    simp only [extractActionMessage, hm]
    rw [if_pos hlen]
    cases hx : goIndex ['\x01'] (m.drop 6) with
    | none => simp [hx]
    | some e => simp [hx]

/-- Witness for the amended C9 at concrete strings. -/
theorem c9_amended_totality_witness :
    extractNickname (goStr "no bang") = some [] ∧
    (extractNickname (goStr ":a!b")).isSome = true ∧
    (extractActionMessage (goStr "xACTION y")).isSome = true ∧
    (extractActionMessage (goStr "abcdef")).isSome = true :=
  ⟨c9_amended_totality.1 (goStr "no bang") (by decide),
   c9_amended_totality.2.1 (goStr ":a!b") 2 (by decide) (by decide),
   c9_amended_totality.2.2.1 (goStr "xACTION y") 1 (by decide) (by decide),
   c9_amended_totality.2.2.2 (goStr "abcdef") (by decide) (by decide)⟩

theorem countDials_append (a b : List ManagerEvent) :
    countDials (a ++ b) = countDials a + countDials b := by
  induction a with
  | nil => simp [countDials]
  | cons e r ih => cases e <;> (simp [countDials, ih]; try omega)

theorem hasSleepEvent_append (a b : List ManagerEvent) :
    hasSleepEvent (a ++ b) = (hasSleepEvent a || hasSleepEvent b) := by
  induction a with
  | nil => simp [hasSleepEvent]
  | cons e r ih => cases e <;> simp [hasSleepEvent, ih]

theorem hasFatalExit_append (a b : List ManagerEvent) :
    hasFatalExit (a ++ b) = (hasFatalExit a || hasFatalExit b) := by
  induction a with
  | nil => simp [hasFatalExit]
  | cons e r ih => cases e <;> simp [hasFatalExit, ih]

theorem trace_false_countDials (outs : List DialOutcome) :
    countDials (manageIRCConnectionTrace false outs) = outs.length := by
  induction outs with
  | nil => rfl
  | cons o rest ih =>
      cases o with
      | ok =>
          cases rest with
          | nil => rfl
          | cons o2 r2 =>
              simp only [manageIRCConnectionTrace, if_neg (Bool.false_ne_true),
                List.nil_append]
              simp [countDials, ih]
      | fail =>
          simp only [manageIRCConnectionTrace, if_neg (Bool.false_ne_true)]
          simp [countDials, ih]

theorem trace_no_sleep (first : Bool) (outs : List DialOutcome) :
    hasSleepEvent (manageIRCConnectionTrace first outs) = false := by
  induction outs generalizing first with
  | nil => rfl
  | cons o rest ih =>
      cases o with
      | ok =>
          cases rest with
          | nil =>
              cases first <;>
                simp [manageIRCConnectionTrace, hasSleepEvent, hasSleepEvent_append]
          | cons o2 r2 =>
              cases first <;>
                simp [manageIRCConnectionTrace, hasSleepEvent, hasSleepEvent_append, ih]
      | fail =>
          cases first <;>
            simp [manageIRCConnectionTrace, hasSleepEvent, ih]

theorem trace_false_no_fatal (outs : List DialOutcome) :
    hasFatalExit (manageIRCConnectionTrace false outs) = false := by
  induction outs with
  | nil => rfl
  | cons o rest ih =>
      cases o with
      | ok =>
          cases rest with
          | nil => rfl
          | cons o2 r2 =>
              simp [manageIRCConnectionTrace, hasFatalExit, hasFatalExit_append, ih]
      | fail =>
          simp [manageIRCConnectionTrace, hasFatalExit, ih]

/-- Evidence for claim C1 (code bug): after one reconnect (two successful
dials), the manager's current session has generation 1, while the webhook
handler still writes through the session it captured from the one-shot
ready channel, generation 0 — the superseded connection.  The ready channel
is only sent on the first connection and the handler's pointer is never
updated. -/
theorem c1_stale_handler_session :
    manageIRCConnection [DialOutcome.ok, DialOutcome.ok]
      = some { current := some 1, handlerSession := some 0, nextGen := 2,
               firstConnection := false } ∧
    ((manageIRCConnection [DialOutcome.ok, DialOutcome.ok]).map webhookWriteTarget
        == (manageIRCConnection [DialOutcome.ok, DialOutcome.ok]).map
             ManagerState.current) = false := by
  decide

/-- Counterexample to claim C2: after the first successful connection is
lost and the following dial fails, the failure is logged and the next dial
attempt happens immediately afterwards — the trace contains no sleep event
at all, so the retry does not happen "after a fixed delay". -/
theorem c2_counterexample :
    manageIRCConnectionTrace true [DialOutcome.ok, DialOutcome.fail, DialOutcome.ok]
      = [ManagerEvent.dial, ManagerEvent.registerCmds, ManagerEvent.sendReady,
         ManagerEvent.logConnectionLost, ManagerEvent.dial,
         ManagerEvent.logConnectFailure, ManagerEvent.dial,
         ManagerEvent.registerCmds] ∧
    hasSleepEvent (manageIRCConnectionTrace true
      [DialOutcome.ok, DialOutcome.fail, DialOutcome.ok]) = false := by
  decide

/-- Claim C2 amended: a failure to establish the very first connection logs
and terminates the process; every subsequent dial failure is logged and the
attempt is retried immediately, with no delay, and this retrying continues
indefinitely (every further dial outcome produces exactly one dial attempt
and a first-success run never exits fatally). -/
theorem c2_amended_reconnect_behavior :
    (∀ rest, manageIRCConnectionTrace true (DialOutcome.fail :: rest)
        = [ManagerEvent.dial, ManagerEvent.logConnectFailure,
           ManagerEvent.fatalExit]) ∧
    (∀ first outs, hasSleepEvent (manageIRCConnectionTrace first outs) = false) ∧
    (∀ rest, countDials (manageIRCConnectionTrace false rest) = rest.length) ∧
    (∀ rest, countDials (manageIRCConnectionTrace true (DialOutcome.ok :: rest))
        = 1 + rest.length) ∧
    (∀ rest, hasFatalExit (manageIRCConnectionTrace true (DialOutcome.ok :: rest))
        = false) := by
  refine ⟨fun rest => rfl, trace_no_sleep, trace_false_countDials, ?_, ?_⟩
  · intro rest
    cases rest with
    | nil => rfl
    | cons o2 r2 =>
        simp [manageIRCConnectionTrace, countDials, countDials_append,
          trace_false_countDials]
        omega
  · intro rest
    cases rest with
    | nil => rfl
    | cons o2 r2 =>
        simp [manageIRCConnectionTrace, hasFatalExit, hasFatalExit_append,
          trace_false_no_fatal]

/-- Counterexample to claim C3: the line
":nick!u@h PRIVMSG #chan :I like ACTION movies" followed by CRLF is a plain
PRIVMSG in the sense of the claim — it does not start with "PING", contains
no "JOIN", no "PART" and no SOH byte (so it is not a CTCP-ACTION-framed
PRIVMSG) and carries the " PRIVMSG " token — yet handleMessage classifies
it by the substring test Contains("ACTION") and forwards
"_nick movies_" instead of "(angle)nick(angle) I like ACTION movies". -/
theorem c3_counterexample :
    goStartsWith (goStr "PING")
      (goStr ":nick!u@h PRIVMSG #chan :I like ACTION movies\r\n") = false ∧
    goContains (goStr "JOIN")
      (goStr ":nick!u@h PRIVMSG #chan :I like ACTION movies\r\n") = false ∧
    goContains (goStr "PART")
      (goStr ":nick!u@h PRIVMSG #chan :I like ACTION movies\r\n") = false ∧
    goContains ['\x01']
      (goStr ":nick!u@h PRIVMSG #chan :I like ACTION movies\r\n") = false ∧
    goContains (goStr " PRIVMSG ")
      (goStr ":nick!u@h PRIVMSG #chan :I like ACTION movies\r\n") = true ∧
    extractNickname (goStr ":nick!u@h PRIVMSG #chan :I like ACTION movies\r\n")
      = some (goStr "nick") ∧
    extractIRCMessage (goStr ":nick!u@h PRIVMSG #chan :I like ACTION movies\r\n")
      = goStr "I like ACTION movies" ∧
    handleMessage (goStr ":nick!u@h PRIVMSG #chan :I like ACTION movies\r\n")
      = some (HandleAction.slack (goStr "_nick movies_")) ∧
    (goStr "_nick movies_" == goStr "<nick> I like ACTION movies") = false := by
  decide

/-- Claim C3 amended: classification is by first-matching substring test.
For every line that does not begin with "PING" and contains none of the
substrings "JOIN", "PART" and "ACTION" but does contain "PRIVMSG", the
message forwarded to Slack is exactly the angle-bracketed nickname followed
by the extracted chat text (when nickname extraction does not panic); lines
whose payload merely mentions JOIN, PART or ACTION are captured by an
earlier branch of the chain. -/
theorem c3_amended_plain_forwarding (m : List Char)
    (h1 : goStartsWith (goStr "PING") m = false)
    (h2 : goContains (goStr "JOIN") m = false)
    (h3 : goContains (goStr "PART") m = false)
    (h4 : goContains (goStr "PRIVMSG") m = true)
    (h5 : goContains (goStr "ACTION") m = false) :
    handleMessage m = (extractNickname m).map
      (fun nickname =>
        HandleAction.slack ('<' :: nickname ++ '>' :: ' ' :: extractIRCMessage m)) := by
  unfold handleMessage
  simp [h1, h2, h3, h4, h5]

/-- Witness for the amended C3 at a concrete plain PRIVMSG line. -/
theorem c3_amended_plain_forwarding_witness :
    handleMessage (goStr ":nick!u@h PRIVMSG #chan :hello\r\n")
      = some (HandleAction.slack (goStr "<nick> hello")) := by
  have h := c3_amended_plain_forwarding (goStr ":nick!u@h PRIVMSG #chan :hello\r\n")
    (by decide) (by decide) (by decide) (by decide) (by decide)
  rw [h]
  decide

/-- Evidence for claim C10 (code bug): the PONG reply is computed correctly
by Replace, but the source then writes it with fmt.Fprintf(conn, response),
treating the line as a printf format string with no operands.  A PING whose
trailing parameter contains a percent sign is therefore mangled on the
wire, while percent-free lines are written verbatim. -/
theorem c10_fprintf_mangles_pong :
    handleMessage (goStr "PING :a%d\r\n")
      = some (HandleAction.pong (goStr "PONG :a%d\r\n")) ∧
    pongWireBytes (goStr "PONG :a%d\r\n") = goStr "PONG :a%!d(MISSING)\r\n" ∧
    (pongWireBytes (goStr "PONG :a%d\r\n") == goStr "PONG :a%d\r\n") = false ∧
    pongWireBytes (goStr "PONG :abc\r\n") = goStr "PONG :abc\r\n" := by
  decide

/-- Counterexample to claim C4: a filtered message event (non-empty
subtype) is answered with status 200 and an EMPTY body — the handler
returns after WriteHeader without writing "ok" — contradicting the claim
that every accepted or filtered message event yields 200 with body "ok". -/
theorem c4_counterexample :
    (createWebhookHandler sampleConfig id id true "POST" (some subtypedEvent)).1
      = ⟨200, ""⟩ ∧
    shouldProcessMessage subtypedEvent sampleConfig = false ∧
    (("" : String) == "ok") = false := by
  decide

/-- Claim C4 amended: non-POST yields 405; an undecodable body yields 400;
url_verification yields 200 with the literal challenge as body; a FILTERED
message event yields 200 with an empty body; an accepted message event
whose guarded IRC write succeeds yields 200 with body "ok", and a failed
write yields 500; every other envelope yields 200 with body "ok". -/
theorem c4_amended_webhook_responses (config : Config)
    (resolve translate : String → String) (writeOk : Bool)
    (method : String) (decoded : Option SlackEvent) :
    (method ≠ "POST" →
      (createWebhookHandler config resolve translate writeOk method decoded).1
        = ⟨405, "Method not allowed\n"⟩) ∧
    (method = "POST" → decoded = none →
      (createWebhookHandler config resolve translate writeOk method decoded).1
        = ⟨400, "Bad request\n"⟩) ∧
    (∀ event, method = "POST" → decoded = some event →
      event.type = "url_verification" →
      (createWebhookHandler config resolve translate writeOk method decoded).1
        = ⟨200, event.challenge⟩) ∧
    (∀ event, method = "POST" → decoded = some event →
      event.type = "event_callback" → event.event.type = "message" →
      shouldProcessMessage event config = false →
      (createWebhookHandler config resolve translate writeOk method decoded).1
        = ⟨200, ""⟩) ∧
    (∀ event, method = "POST" → decoded = some event →
      event.type = "event_callback" → event.event.type = "message" →
      shouldProcessMessage event config = true →
      (createWebhookHandler config resolve translate writeOk method decoded).1
        = if writeOk then ⟨200, "ok"⟩ else ⟨500, "Internal server error\n"⟩) ∧
    (∀ event, method = "POST" → decoded = some event →
      event.type ≠ "url_verification" →
      (event.type = "event_callback" → event.event.type ≠ "message") →
      (createWebhookHandler config resolve translate writeOk method decoded).1
        = ⟨200, "ok"⟩) := by
  refine ⟨?_, ?_, ?_, ?_, ?_, ?_⟩
  · intro hm
    simp [createWebhookHandler, hm]
  · intro hm hd
    subst hm
    subst hd
    simp [createWebhookHandler]
  · intro event hm hd ht
    subst hm
    subst hd
    simp [createWebhookHandler, ht]
  · intro event hm hd ht hmsg hfilter
    subst hm
    subst hd
    by_cases hver : event.type = "url_verification"
    · rw [hver] at ht
      exact absurd ht (by decide)
    · simp [createWebhookHandler, hver, ht, hmsg, hfilter]
  · intro event hm hd ht hmsg hproc
    subst hm
    subst hd
    by_cases hver : event.type = "url_verification"
    · rw [hver] at ht
      exact absurd ht (by decide)
    · cases writeOk <;>
        simp [createWebhookHandler, hver, ht, hmsg, hproc]
  · intro event hm hd hver hcb
    subst hm
    subst hd
    by_cases ht : event.type = "event_callback"
    · have hmt := hcb ht
      simp [createWebhookHandler, hver, ht, hmt]
    · simp [createWebhookHandler, hver, ht]

/-- Witness for the amended C4, touching every response class at concrete
inputs. -/
theorem c4_amended_webhook_responses_witness :
    (createWebhookHandler sampleConfig id id true "GET" none).1
      = ⟨405, "Method not allowed\n"⟩ ∧
    (createWebhookHandler sampleConfig id id true "POST" none).1
      = ⟨400, "Bad request\n"⟩ ∧
    (createWebhookHandler sampleConfig id id true "POST" (some verificationEvent)).1
      = ⟨200, "abc123"⟩ ∧
    (createWebhookHandler sampleConfig id id true "POST" (some subtypedEvent)).1
      = ⟨200, ""⟩ ∧
    (createWebhookHandler sampleConfig id id true "POST" (some plainEvent)).1
      = ⟨200, "ok"⟩ ∧
    (createWebhookHandler sampleConfig id id false "POST" (some plainEvent)).1
      = ⟨500, "Internal server error\n"⟩ := by
  have h1 := (c4_amended_webhook_responses sampleConfig id id true "GET" none).1
    (by decide)
  have h2 := (c4_amended_webhook_responses sampleConfig id id true "POST" none).2.1
    rfl rfl
  have h3 := (c4_amended_webhook_responses sampleConfig id id true "POST"
    (some verificationEvent)).2.2.1 verificationEvent rfl rfl (by decide)
  have h4 := (c4_amended_webhook_responses sampleConfig id id true "POST"
    (some subtypedEvent)).2.2.2.1 subtypedEvent rfl rfl (by decide) (by decide)
    (by decide)
  have h5 := (c4_amended_webhook_responses sampleConfig id id true "POST"
    (some plainEvent)).2.2.2.2.1 plainEvent rfl rfl (by decide) (by decide)
    (by decide)
  have h6 := (c4_amended_webhook_responses sampleConfig id id false "POST"
    (some plainEvent)).2.2.2.2.1 plainEvent rfl rfl (by decide) (by decide)
    (by decide)
  exact ⟨h1, h2, h3, h4, h5, h6⟩

theorem fetchDisplayName_lookups (lookup : LookupResult) (userID : String)
    (now : Nat) (cache : UserCacheMap) :
    (fetchDisplayName lookup userID now cache).lookups = 1 := by
  cases lookup <;> rfl

theorem getUserDisplayName_hit (lookup : LookupResult) (userID : String)
    (now : Nat) (cache : UserCacheMap) (e : UserCacheEntry)
    (hf : cacheFind cache userID = some e) (hexp : now < e.expiration) :
    getUserDisplayName lookup userID now cache = ⟨e.displayName, cache, 0⟩ := by
  unfold getUserDisplayName
  rw [hf]
  show (if now < e.expiration then (⟨e.displayName, cache, 0⟩ : ResolveResult)
    else fetchDisplayName lookup userID now cache) = ⟨e.displayName, cache, 0⟩
  rw [if_pos hexp]

theorem getUserDisplayName_stale (lookup : LookupResult) (userID : String)
    (now : Nat) (cache : UserCacheMap) (e : UserCacheEntry)
    (hf : cacheFind cache userID = some e) (hexp : ¬ now < e.expiration) :
    getUserDisplayName lookup userID now cache
      = fetchDisplayName lookup userID now cache := by
  unfold getUserDisplayName
  rw [hf]
  show (if now < e.expiration then (⟨e.displayName, cache, 0⟩ : ResolveResult)
    else fetchDisplayName lookup userID now cache)
    = fetchDisplayName lookup userID now cache
  rw [if_neg hexp]

theorem getUserDisplayName_miss (lookup : LookupResult) (userID : String)
    (now : Nat) (cache : UserCacheMap) (hf : cacheFind cache userID = none) :
    getUserDisplayName lookup userID now cache
      = fetchDisplayName lookup userID now cache := by
  unfold getUserDisplayName
  rw [hf]

theorem cacheFind_insert_self (cache : UserCacheMap) (k : String)
    (v : UserCacheEntry) : cacheFind (cacheInsert cache k v) k = some v := by
  unfold cacheInsert cacheFind
  rw [if_pos rfl]

/-- Claim C5: the identity cache never serves an expired entry — a call that
performs no remote lookup read a cached value whose expiration is strictly
after the current time; starting from a cache without an entry for the user,
a second Resolve within one hour of a successful first Resolve performs no
new remote lookup, and a Resolve at or after the hour performs exactly one
new remote lookup. -/
theorem c5_cache_freshness :
    (∀ cache userID now lookup,
      (getUserDisplayName lookup userID now cache).lookups = 0 →
      ∃ e, cacheFind cache userID = some e ∧ now < e.expiration ∧
        (getUserDisplayName lookup userID now cache).name = e.displayName) ∧
    (∀ cache userID t1 t2 d r look2,
      cacheFind cache userID = none →
      t2 < t1 + cacheDuration →
      (getUserDisplayName look2 userID t2
        (getUserDisplayName (LookupResult.ok d r) userID t1 cache).cache).lookups
        = 0) ∧
    (∀ cache userID t1 t2 d r look2,
      cacheFind cache userID = none →
      t1 + cacheDuration ≤ t2 →
      (getUserDisplayName look2 userID t2
        (getUserDisplayName (LookupResult.ok d r) userID t1 cache).cache).lookups
        = 1) := by
  have hcache1 : ∀ cache userID t1 (d r : String),
      cacheFind cache userID = none →
      (getUserDisplayName (LookupResult.ok d r) userID t1 cache).cache
        = cacheInsert cache userID
            ⟨if d ≠ "" then d else if r ≠ "" then r else userID,
             t1 + cacheDuration⟩ := by
    intro cache userID t1 d r hmiss
    rw [getUserDisplayName_miss _ _ _ _ hmiss]
    rfl
  refine ⟨?_, ?_, ?_⟩
  · intro cache userID now lookup h
    cases hf : cacheFind cache userID with
    | none =>
        rw [getUserDisplayName_miss _ _ _ _ hf, fetchDisplayName_lookups] at h
        exact absurd h (by decide)
    | some e =>
        by_cases hexp : now < e.expiration
        · exact ⟨e, rfl, hexp, by rw [getUserDisplayName_hit _ _ _ _ e hf hexp]⟩
        · rw [getUserDisplayName_stale _ _ _ _ e hf hexp,
            fetchDisplayName_lookups] at h
          exact absurd h (by decide)
  · intro cache userID t1 t2 d r look2 hmiss ht
    rw [hcache1 cache userID t1 d r hmiss]
    rw [getUserDisplayName_hit look2 userID t2 _ _ (cacheFind_insert_self _ _ _) ht]
  · intro cache userID t1 t2 d r look2 hmiss ht
    rw [hcache1 cache userID t1 d r hmiss]
    rw [getUserDisplayName_stale look2 userID t2 _ _ (cacheFind_insert_self _ _ _)
      (show ¬ t2 < t1 + cacheDuration by omega)]
    exact fetchDisplayName_lookups look2 userID t2 _

/-- Witness for C5: a valid cached entry is served without lookup, a fresh
entry is served within the hour, and refetched at the hour. -/
theorem c5_cache_freshness_witness :
    (∃ e, cacheFind [("U1", ⟨"alice", 100⟩)] "U1" = some e ∧ 5 < e.expiration ∧
      (getUserDisplayName LookupResult.netError "U1" 5
        [("U1", ⟨"alice", 100⟩)]).name = e.displayName) ∧
    (getUserDisplayName LookupResult.netError "U2" 10
      (getUserDisplayName (LookupResult.ok "bob" "Bob") "U2" 0 []).cache).lookups
      = 0 ∧
    (getUserDisplayName LookupResult.netError "U2" 3600
      (getUserDisplayName (LookupResult.ok "bob" "Bob") "U2" 0 []).cache).lookups
      = 1 :=
  ⟨c5_cache_freshness.1 [("U1", ⟨"alice", 100⟩)] "U1" 5 LookupResult.netError
      (by decide),
   c5_cache_freshness.2.1 [] "U2" 0 10 "bob" "Bob" LookupResult.netError rfl
      (by decide),
   c5_cache_freshness.2.2 [] "U2" 0 3600 "bob" "Bob" LookupResult.netError rfl
      (by decide)⟩

/-- Claim C6: on a cache miss (or expired entry), a successful remote
lookup selects the display name, falling back to the real name, falling
back to the raw user ID, and caches that value with expiration one hour
from now; any lookup failure returns the raw user ID and leaves the cache
unchanged, and when the cache held nothing for that user the next Resolve
performs the lookup again. -/
theorem c6_lookup_fallback_and_failure (lookup : LookupResult) (userID : String)
    (now : Nat) (cache : UserCacheMap)
    (hmiss : ∀ e, cacheFind cache userID = some e → e.expiration ≤ now) :
    (∀ d r, lookup = LookupResult.ok d r →
      (getUserDisplayName lookup userID now cache).name
        = (if d ≠ "" then d else if r ≠ "" then r else userID) ∧
      cacheFind (getUserDisplayName lookup userID now cache).cache userID
        = some ⟨if d ≠ "" then d else if r ≠ "" then r else userID,
            now + cacheDuration⟩) ∧
    ((lookup = LookupResult.netError ∨ lookup = LookupResult.decodeError ∨
        lookup = LookupResult.apiNotOk) →
      (getUserDisplayName lookup userID now cache).name = userID ∧
      (getUserDisplayName lookup userID now cache).cache = cache ∧
      (cacheFind cache userID = none → ∀ look2 now2,
        (getUserDisplayName look2 userID now2
          (getUserDisplayName lookup userID now cache).cache).lookups = 1)) := by
  have hfetch : getUserDisplayName lookup userID now cache
      = fetchDisplayName lookup userID now cache := by
    cases hf : cacheFind cache userID with
    | none => exact getUserDisplayName_miss _ _ _ _ hf
    | some e => exact getUserDisplayName_stale _ _ _ _ e hf (by have := hmiss e hf; omega)
  constructor
  · intro d r hl
    subst hl
    rw [hfetch]
    exact ⟨rfl, cacheFind_insert_self cache userID _⟩
  · intro hl
    have hname : (getUserDisplayName lookup userID now cache).name = userID := by
      rw [hfetch]
      rcases hl with h | h | h <;> rw [h] <;> rfl
    have hcache : (getUserDisplayName lookup userID now cache).cache = cache := by
      rw [hfetch]
      rcases hl with h | h | h <;> rw [h] <;> rfl
    refine ⟨hname, hcache, ?_⟩
    intro hnone look2 now2
    rw [hcache, getUserDisplayName_miss _ _ _ _ hnone]
    exact fetchDisplayName_lookups look2 userID now2 cache

/-- Witness for C6: fallback to the real name on a successful lookup with
empty display name, and a decode failure leaves the cache empty so the next
call looks up again. -/
theorem c6_lookup_fallback_and_failure_witness :
    ((getUserDisplayName (LookupResult.ok "" "Robert") "U3" 0 []).name
      = "Robert" ∧
     cacheFind (getUserDisplayName (LookupResult.ok "" "Robert") "U3" 0 []).cache
       "U3" = some ⟨"Robert", cacheDuration⟩) ∧
    ((getUserDisplayName LookupResult.decodeError "U4" 0 []).name = "U4" ∧
     (getUserDisplayName LookupResult.decodeError "U4" 0 []).cache = [] ∧
     (getUserDisplayName LookupResult.netError "U4" 1
       (getUserDisplayName LookupResult.decodeError "U4" 0 []).cache).lookups
       = 1) := by
  have h1 := (c6_lookup_fallback_and_failure (LookupResult.ok "" "Robert") "U3" 0 []
    (fun e he => by simp [cacheFind] at he)).1 "" "Robert" rfl
  have h2 := (c6_lookup_fallback_and_failure LookupResult.decodeError "U4" 0 []
    (fun e he => by simp [cacheFind] at he)).2 (Or.inr (Or.inl rfl))
  refine ⟨⟨?_, ?_⟩, h2.1, h2.2.1, h2.2.2 rfl LookupResult.netError 1⟩
  · rw [h1.1]
    decide
  · rw [h1.2]
    decide

theorem tagsOf_append_single (s : List (Bool × Char)) (e : Bool × Char) :
    tagsOf (s ++ [e]) = tagsOf s ++ [e.1] := by
  simp [tagsOf]

theorem streamProj_append_single (t : Bool) (s : List (Bool × Char))
    (u : Bool) (c : Char) :
    streamProj t (s ++ [(u, c)])
      = streamProj t s ++ (if u = t then [c] else []) := by
  unfold streamProj
  rw [List.filter_append, List.map_append]
  congr 1
  by_cases h : u = t
  · subst h
    simp
  · have hbeq : (u == t) = false := beq_eq_false_iff_ne.mpr h
    simp [List.filter_cons, hbeq, h]

theorem flips_append_single (l : List Bool) (x : Bool) :
    flips (l ++ [x]) = flips l + (match l.getLast? with
      | none => 0
      | some a => if a = x then 0 else 1) := by
  induction l with
  | nil => simp [flips]
  | cons a r ih =>
      cases r with
      | nil => simp [flips]
      | cons b r2 =>
          have hlast : (a :: b :: r2).getLast? = (b :: r2).getLast? :=
            List.getLast?_cons_cons
          calc flips ((a :: b :: r2) ++ [x])
              = (if a = b then 0 else 1) + flips ((b :: r2) ++ [x]) := rfl
            _ = (if a = b then 0 else 1) + (flips (b :: r2)
                  + (match (b :: r2).getLast? with
                     | none => 0
                     | some a2 => if a2 = x then 0 else 1)) := by rw [ih]
            _ = flips (a :: b :: r2) + (match (a :: b :: r2).getLast? with
                  | none => 0
                  | some a2 => if a2 = x then 0 else 1) := by
                rw [hlast]
                show _ = (if a = b then 0 else 1) + flips (b :: r2) + _
                omega

theorem flips_of_constant (l : List Bool) (b : Bool) (h : ∀ x ∈ l, x = b) :
    flips l = 0 := by
  induction l with
  | nil => rfl
  | cons a r ih =>
      cases r with
      | nil => rfl
      | cons c r2 =>
          have ha := h a (List.mem_cons_self a _)
          have hc := h c (by simp)
          have hr : flips (c :: r2) = 0 := ih (fun x hx => h x (by simp [hx]))
          show (if a = c then 0 else 1) + flips (c :: r2) = 0
          rw [hr, if_pos (ha.trans hc.symm)]

theorem streamProj_empty_tags (t : Bool) (s : List (Bool × Char))
    (h : streamProj t s = []) : ∀ x ∈ tagsOf s, x = !t := by
  intro x hx
  obtain ⟨e, he, hex⟩ := List.mem_map.mp hx
  obtain ⟨b, ch⟩ := e
  have hfe : (s.filter (fun e => e.1 == t)) = [] := by
    cases hh : s.filter (fun e => e.1 == t) with
    | nil => rfl
    | cons y ys =>
        unfold streamProj at h
        rw [hh] at h
        simp at h
  have hne : ¬ ((fun e : Bool × Char => e.1 == t) (b, ch) = true) :=
    List.filter_eq_nil_iff.mp hfe (b, ch) he
  simp only [] at hne
  subst hex
  cases b <;> cases t <;> simp_all

theorem updatePc_self (pc : Bool → WriterPc) (t : Bool) (v : WriterPc) :
    updatePc pc t v t = v := by
  simp [updatePc]

theorem updatePc_other (pc : Bool → WriterPc) (t u : Bool) (v : WriterPc)
    (h : u ≠ t) : updatePc pc t v u = pc u := by
  simp [updatePc, h]

theorem relayInv_init (lineA lineB : List Char) :
    RelayInv lineA lineB (relayInit lineA lineB) := by
  refine ⟨?_, ?_, ?_, ?_, ?_, ?_, ?_⟩
  · intro t h
    exact absurd h (by simp [relayInit])
  · intro t r h
    simp only [relayInit] at h
    exact WriterPc.noConfusion h
  · intro t l h
    simp only [relayInit] at h
    injection h with h2
    exact ⟨h2.symm, rfl⟩
  · intro t r h
    simp only [relayInit] at h
    exact WriterPc.noConfusion h
  · intro t h
    simp only [relayInit] at h
    exact WriterPc.noConfusion h
  · intro t r h
    simp only [relayInit] at h
    exact WriterPc.noConfusion h
  · simp [relayInit, noInterleave, tagsOf, flips]

theorem relayInv_step (lineA lineB : List Char) (s s2 : RelayState)
    (hinv : RelayInv lineA lineB s) (hstep : RelayStep s s2) :
    RelayInv lineA lineB s2 := by
  obtain ⟨inv1, inv2, inv3, inv4, inv5, inv6, inv7⟩ := hinv
  cases hstep with
  | acquire t line hlock hpc =>
      obtain ⟨hline, hproj⟩ := inv3 t line hpc
      refine ⟨?_, ?_, ?_, ?_, ?_, ?_, ?_⟩
      · intro u hu
        injection hu with hu2
        subst hu2
        exact ⟨line, updatePc_self s.pc t _⟩
      · intro u r hu
        by_cases h : u = t
        · subst h
          rfl
        · rw [show RelayState.pc
              { lock := some t, pc := updatePc s.pc t (WriterPc.writing line),
                stream := s.stream } u = updatePc s.pc t (WriterPc.writing line) u
              from rfl, updatePc_other s.pc t u _ h] at hu
          have h2 := inv2 u r hu
          rw [hlock] at h2
          exact Option.noConfusion h2
      · intro u l2 hu
        by_cases h : u = t
        · subst h
          rw [show RelayState.pc
              { lock := some u, pc := updatePc s.pc u (WriterPc.writing line),
                stream := s.stream } u = updatePc s.pc u (WriterPc.writing line) u
              from rfl, updatePc_self s.pc u _] at hu
          exact WriterPc.noConfusion hu
        · rw [show RelayState.pc
              { lock := some t, pc := updatePc s.pc t (WriterPc.writing line),
                stream := s.stream } u = updatePc s.pc t (WriterPc.writing line) u
              from rfl, updatePc_other s.pc t u _ h] at hu
          exact inv3 u l2 hu
      · intro u r hu
        by_cases h : u = t
        · subst h
          rw [show RelayState.pc
              { lock := some u, pc := updatePc s.pc u (WriterPc.writing line),
                stream := s.stream } u = updatePc s.pc u (WriterPc.writing line) u
              from rfl, updatePc_self s.pc u _] at hu
          injection hu with hu2
          subst hu2
          show streamProj u s.stream ++ line = relayLine lineA lineB u
          rw [hproj, hline]
          rfl
        · rw [show RelayState.pc
              { lock := some t, pc := updatePc s.pc t (WriterPc.writing line),
                stream := s.stream } u = updatePc s.pc t (WriterPc.writing line) u
              from rfl, updatePc_other s.pc t u _ h] at hu
          exact inv4 u r hu
      · intro u hu
        by_cases h : u = t
        · subst h
          rw [show RelayState.pc
              { lock := some u, pc := updatePc s.pc u (WriterPc.writing line),
                stream := s.stream } u = updatePc s.pc u (WriterPc.writing line) u
              from rfl, updatePc_self s.pc u _] at hu
          exact WriterPc.noConfusion hu
        · rw [show RelayState.pc
              { lock := some t, pc := updatePc s.pc t (WriterPc.writing line),
                stream := s.stream } u = updatePc s.pc t (WriterPc.writing line) u
              from rfl, updatePc_other s.pc t u _ h] at hu
          exact inv5 u hu
      · intro u r hu hne
        by_cases h : u = t
        · subst h
          exact absurd hproj hne
        · rw [show RelayState.pc
              { lock := some t, pc := updatePc s.pc t (WriterPc.writing line),
                stream := s.stream } u = updatePc s.pc t (WriterPc.writing line) u
              from rfl, updatePc_other s.pc t u _ h] at hu
          exact inv6 u r hu hne
      · exact inv7
  | emit t c rest hlock hpc =>
      have hprog := inv4 t (c :: rest) hpc
      refine ⟨?_, ?_, ?_, ?_, ?_, ?_, ?_⟩
      · intro u hu
        rw [show RelayState.lock
            { lock := s.lock, pc := updatePc s.pc t (WriterPc.writing rest),
              stream := s.stream ++ [(t, c)] } = s.lock from rfl, hlock] at hu
        injection hu with hu2
        subst hu2
        exact ⟨rest, updatePc_self s.pc t _⟩
      · intro u r2 hu
        by_cases h : u = t
        · subst h
          exact hlock
        · rw [show RelayState.pc
              { lock := s.lock, pc := updatePc s.pc t (WriterPc.writing rest),
                stream := s.stream ++ [(t, c)] } u
              = updatePc s.pc t (WriterPc.writing rest) u from rfl,
            updatePc_other s.pc t u _ h] at hu
          exact inv2 u r2 hu
      · intro u l2 hu
        by_cases h : u = t
        · subst h
          rw [show RelayState.pc
              { lock := s.lock, pc := updatePc s.pc u (WriterPc.writing rest),
                stream := s.stream ++ [(u, c)] } u
              = updatePc s.pc u (WriterPc.writing rest) u from rfl,
            updatePc_self s.pc u _] at hu
          exact WriterPc.noConfusion hu
        · rw [show RelayState.pc
              { lock := s.lock, pc := updatePc s.pc t (WriterPc.writing rest),
                stream := s.stream ++ [(t, c)] } u
              = updatePc s.pc t (WriterPc.writing rest) u from rfl,
            updatePc_other s.pc t u _ h] at hu
          obtain ⟨hl2, hp2⟩ := inv3 u l2 hu
          refine ⟨hl2, ?_⟩
          show streamProj u (s.stream ++ [(t, c)]) = []
          rw [streamProj_append_single, if_neg (fun h2 => h h2.symm), hp2]
          rfl
      · intro u r2 hu
        by_cases h : u = t
        · subst h
          rw [show RelayState.pc
              { lock := s.lock, pc := updatePc s.pc u (WriterPc.writing rest),
                stream := s.stream ++ [(u, c)] } u
              = updatePc s.pc u (WriterPc.writing rest) u from rfl,
            updatePc_self s.pc u _] at hu
          injection hu with hu2
          subst hu2
          show streamProj u (s.stream ++ [(u, c)]) ++ rest = relayLine lineA lineB u
          rw [streamProj_append_single, if_pos rfl, List.append_assoc]
          exact hprog
        · rw [show RelayState.pc
              { lock := s.lock, pc := updatePc s.pc t (WriterPc.writing rest),
                stream := s.stream ++ [(t, c)] } u
              = updatePc s.pc t (WriterPc.writing rest) u from rfl,
            updatePc_other s.pc t u _ h] at hu
          have h2 := inv2 u r2 hu
          rw [hlock] at h2
          injection h2 with h3
          exact absurd h3.symm h
      · intro u hu
        by_cases h : u = t
        · subst h
          rw [show RelayState.pc
              { lock := s.lock, pc := updatePc s.pc u (WriterPc.writing rest),
                stream := s.stream ++ [(u, c)] } u
              = updatePc s.pc u (WriterPc.writing rest) u from rfl,
            updatePc_self s.pc u _] at hu
          exact WriterPc.noConfusion hu
        · rw [show RelayState.pc
              { lock := s.lock, pc := updatePc s.pc t (WriterPc.writing rest),
                stream := s.stream ++ [(t, c)] } u
              = updatePc s.pc t (WriterPc.writing rest) u from rfl,
            updatePc_other s.pc t u _ h] at hu
          show streamProj u (s.stream ++ [(t, c)]) = relayLine lineA lineB u
          rw [streamProj_append_single, if_neg (fun h2 => h h2.symm),
            List.append_nil]
          exact inv5 u hu
      · intro u r2 hu hne
        by_cases h : u = t
        · subst h
          show (tagsOf (s.stream ++ [(u, c)])).getLast? = some u
          rw [tagsOf_append_single]
          exact List.getLast?_concat _
        · rw [show RelayState.pc
              { lock := s.lock, pc := updatePc s.pc t (WriterPc.writing rest),
                stream := s.stream ++ [(t, c)] } u
              = updatePc s.pc t (WriterPc.writing rest) u from rfl,
            updatePc_other s.pc t u _ h] at hu
          have h2 := inv2 u r2 hu
          rw [hlock] at h2
          injection h2 with h3
          exact absurd h3.symm h
      · show noInterleave (s.stream ++ [(t, c)])
        unfold noInterleave
        rw [tagsOf_append_single, flips_append_single]
        by_cases hp : streamProj t s.stream = []
        · have hall := streamProj_empty_tags t s.stream hp
          have hz := flips_of_constant (tagsOf s.stream) (!t) hall
          rw [hz]
          cases hlast : (tagsOf s.stream).getLast? with
          | none => simp
          | some a =>
              show 0 + (if a = (t, c).1 then 0 else 1) ≤ 1
              by_cases hq : a = (t, c).1
              · rw [if_pos hq]
                omega
              · rw [if_neg hq]
        · have hlast := inv6 t (c :: rest) hpc hp
          rw [hlast]
          show flips (tagsOf s.stream) + (if t = (t, c).1 then 0 else 1) ≤ 1
          rw [if_pos rfl]
          unfold noInterleave at inv7
          omega
  | release t hlock hpc =>
      refine ⟨?_, ?_, ?_, ?_, ?_, ?_, ?_⟩
      · intro u hu
        exact Option.noConfusion hu
      · intro u r2 hu
        by_cases h : u = t
        · subst h
          rw [show RelayState.pc
              { lock := none, pc := updatePc s.pc u WriterPc.done,
                stream := s.stream } u = updatePc s.pc u WriterPc.done u from rfl,
            updatePc_self s.pc u _] at hu
          exact WriterPc.noConfusion hu
        · rw [show RelayState.pc
              { lock := none, pc := updatePc s.pc t WriterPc.done,
                stream := s.stream } u = updatePc s.pc t WriterPc.done u from rfl,
            updatePc_other s.pc t u _ h] at hu
          have h2 := inv2 u r2 hu
          rw [hlock] at h2
          injection h2 with h3
          exact absurd h3.symm h
      · intro u l2 hu
        by_cases h : u = t
        · subst h
          rw [show RelayState.pc
              { lock := none, pc := updatePc s.pc u WriterPc.done,
                stream := s.stream } u = updatePc s.pc u WriterPc.done u from rfl,
            updatePc_self s.pc u _] at hu
          exact WriterPc.noConfusion hu
        · rw [show RelayState.pc
              { lock := none, pc := updatePc s.pc t WriterPc.done,
                stream := s.stream } u = updatePc s.pc t WriterPc.done u from rfl,
            updatePc_other s.pc t u _ h] at hu
          exact inv3 u l2 hu
      · intro u r2 hu
        by_cases h : u = t
        · subst h
          rw [show RelayState.pc
              { lock := none, pc := updatePc s.pc u WriterPc.done,
                stream := s.stream } u = updatePc s.pc u WriterPc.done u from rfl,
            updatePc_self s.pc u _] at hu
          exact WriterPc.noConfusion hu
        · rw [show RelayState.pc
              { lock := none, pc := updatePc s.pc t WriterPc.done,
                stream := s.stream } u = updatePc s.pc t WriterPc.done u from rfl,
            updatePc_other s.pc t u _ h] at hu
          exact inv4 u r2 hu
      · intro u hu
        by_cases h : u = t
        · subst h
          have hdone := inv4 u [] hpc
          rw [List.append_nil] at hdone
          exact hdone
        · rw [show RelayState.pc
              { lock := none, pc := updatePc s.pc t WriterPc.done,
                stream := s.stream } u = updatePc s.pc t WriterPc.done u from rfl,
            updatePc_other s.pc t u _ h] at hu
          exact inv5 u hu
      · intro u r2 hu hne
        by_cases h : u = t
        · subst h
          rw [show RelayState.pc
              { lock := none, pc := updatePc s.pc u WriterPc.done,
                stream := s.stream } u = updatePc s.pc u WriterPc.done u from rfl,
            updatePc_self s.pc u _] at hu
          exact WriterPc.noConfusion hu
        · rw [show RelayState.pc
              { lock := none, pc := updatePc s.pc t WriterPc.done,
                stream := s.stream } u = updatePc s.pc t WriterPc.done u from rfl,
            updatePc_other s.pc t u _ h] at hu
          exact inv6 u r2 hu hne
      · exact inv7

theorem relayInv_reach (lineA lineB : List Char) (s : RelayState)
    (h : Relation.ReflTransGen RelayStep (relayInit lineA lineB) s) :
    RelayInv lineA lineB s := by
  induction h with
  | refl => exact relayInv_init lineA lineB
  | tail h2 hstep ih => exact relayInv_step lineA lineB _ _ ih hstep

/-- Claim C8: for a pair of concurrent webhook requests writing their lines
through the mutex-guarded write path, in every state reachable under any
interleaving the byte stream on the IRC connection never interleaves
partial lines — each writer's bytes form one contiguous block (the tag
sequence changes at most once) — and a writer that has finished holds
exactly its own line in the stream, so no line is split by or concatenated
with bytes of another line. -/
theorem c8_guarded_write_no_interleave (lineA lineB : List Char)
    (s : RelayState)
    (h : Relation.ReflTransGen RelayStep (relayInit lineA lineB) s) :
    noInterleave s.stream ∧
    (∀ t, s.pc t = WriterPc.done →
      streamProj t s.stream = relayLine lineA lineB t) := by
  have hinv := relayInv_reach lineA lineB s h
  exact ⟨hinv.2.2.2.2.2.2, hinv.2.2.2.2.1⟩

/-- Witness for C8: a complete interleaved execution in which writer true
writes "ab" and writer false writes "c"; the resulting stream is
non-interleaved and each writer contributed exactly its line. -/
theorem c8_guarded_write_no_interleave_witness :
    noInterleave [(true, 'a'), (true, 'b'), (false, 'c')] ∧
    streamProj true [(true, 'a'), (true, 'b'), (false, 'c')] = goStr "ab" ∧
    streamProj false [(true, 'a'), (true, 'b'), (false, 'c')] = goStr "c" := by
  have h := c8_guarded_write_no_interleave (goStr "ab") (goStr "c") _
    (Relation.ReflTransGen.tail
      (Relation.ReflTransGen.tail
        (Relation.ReflTransGen.tail
          (Relation.ReflTransGen.tail
            (Relation.ReflTransGen.tail
              (Relation.ReflTransGen.tail
                (Relation.ReflTransGen.tail Relation.ReflTransGen.refl
                  (RelayStep.acquire _ true (goStr "ab") rfl rfl))
                (RelayStep.emit _ true 'a' (goStr "b") rfl rfl))
              (RelayStep.emit _ true 'b' [] rfl rfl))
            (RelayStep.release _ true rfl rfl))
          (RelayStep.acquire _ false (goStr "c") rfl rfl))
        (RelayStep.emit _ false 'c' [] rfl rfl))
      (RelayStep.release _ false rfl rfl))
  exact ⟨h.1, h.2 true rfl, h.2 false rfl⟩
